import Mathlib

/-!
# Verification of the `fs-store` directory storage

Shallow embedding of the repository's two components:

* the `Storable` contract (`src/src/storable.rs` / `src/src/lib.rs`):
  a type `T` serializes itself to a byte sink and deserializes itself
  from a byte source, each fallibly with a descriptive message
  (`StorableStoreError(String)`, `StorableRestoreError(String)`);
* `DirStorage` (`src/src/dir.rs`): a `HashMap<String, T>` together with
  `restore`, `store`, `store_single` and map accessors.

The file system is modelled explicitly: a directory is a flag saying
whether the path exists as a directory (`Path::is_dir`) plus a listing of
entries; each entry has a name (possibly not valid UTF-8, as `OsString`
allows), an is-directory flag, and the outcome of opening and reading it.
Byte streams are `List Nat`.  The `HashMap` is modelled as an association
list; its unspecified iteration order becomes the list order.
-/

/-- A file name as returned by `DirEntry::file_name()`: an `OsString`,
which either is valid UTF-8 (so `to_str` yields `Some`) or is not
(distinct non-UTF-8 names are told apart by a tag). -/
inductive FileName where
  | utf8 (s : String)
  | nonUtf8 (tag : Nat)
deriving DecidableEq, Repr

/-- `OsStr::to_str`: `some` exactly on valid UTF-8 names. -/
def FileName.toStr : FileName → Option String
  | .utf8 s => some s
  | .nonUtf8 _ => none

/-- The string `Path::display` would print for this name; only ever used
on names that passed the UTF-8 check. -/
def FileName.displayStr : FileName → String
  | .utf8 s => s
  | .nonUtf8 t => "<non-utf8:" ++ toString t ++ ">"

deriving instance DecidableEq for Except

/-- One directory entry as seen by `read_dir`: its file name, whether it
is itself a directory, and the result of `File::open` + reading it
(`Except.error` is the `io::Error`, modelled by its message, which in
`std` does not include the file path). -/
structure DirEntry where
  name : FileName
  isDir : Bool
  content : Except String (List Nat)
deriving DecidableEq, Repr

/-- A directory in the file system: whether the path `is_dir()`, and its
listing. -/
structure Dir where
  existsAsDir : Bool
  entries : List DirEntry
deriving DecidableEq, Repr

/-- The `Storable<W, R>` trait: `store` serializes a value to the bytes it
writes to the sink (or fails with a `StorableStoreError` message);
`restore` reads bytes back (or fails with a `StorableRestoreError`
message).  Passed explicitly, as the trait dictionary. -/
structure StorableInst (T : Type) where
  store : T → Except String (List Nat)
  restore : List Nat → Except String T

/-- The crate's `Error` enum from `src/src/dir.rs`. -/
inductive Error where
  | OSError (s : String)
  | IOError (s : String)
  | NotFound (filename : String)
  | StoreError (filename : String) (s : String)
  | RestoreError (filename : String) (s : String)
deriving DecidableEq, Repr

/-- The path component an `Error` value carries, if any: `StoreError` and
`RestoreError` attach the offending file path, `NotFound` the key;
`OSError` and `IOError` carry only a message. -/
def Error.pathOf : Error → Option String
  | .StoreError p _ => some p
  | .RestoreError p _ => some p
  | .NotFound p => some p
  | .OSError _ => none
  | .IOError _ => none

/-- How `restore` can end abnormally: with a returned `Error`, or with the
panic of `OsString::into_string().unwrap()` on a non-UTF-8 name. -/
inductive RFail where
  | err (e : Error)
  | badNameUnwrap
deriving DecidableEq, Repr

/-- `Path::join` for a directory path and a plain file name. -/
def pathJoin (dir file : String) : String := dir ++ "/" ++ file

/-- Rust `s.starts_with(".")`: the first character is `'.'`. -/
def startsWithDot (s : String) : Bool :=
  match s.data with
  | [] => false
  | c :: _ => c = '.'

/-- The skip test of `restore` (dir.rs line 103):
`entry.file_name().to_str().map(|s| s.starts_with(".")).unwrap_or(true)` —
true for hidden names and for names that are not valid UTF-8. -/
def hiddenOrNonUtf8 (n : FileName) : Bool :=
  match n.toStr with
  | some s => startsWithDot s
  | none => true

/-- Association-list lookup, modelling `HashMap::get`. -/
def mapLookup {T : Type} : List (String × T) → String → Option T
  | [], _ => none
  | (k, v) :: rest, key => if k = key then some v else mapLookup rest key

/-- Association-list insert, modelling `HashMap::insert` (replaces the
binding if the key is present, appends it otherwise). -/
def mapInsert {T : Type} : List (String × T) → String → T → List (String × T)
  | [], key, v => [(key, v)]
  | (k, w) :: rest, key, v =>
      if k = key then (key, v) :: rest else (k, w) :: mapInsert rest key v

/-- The key set (with multiplicity) of the association list, modelling
`HashMap::keys`; its order stands for the map's unspecified iteration
order. -/
def mapKeys {T : Type} (m : List (String × T)) : List String :=
  m.map Prod.fst

/-- The `DirStorage<T>` struct: a map from `String` keys to values. -/
structure DirStorage (T : Type) where
  storage : List (String × T)
deriving DecidableEq, Repr

/-- `DirStorage::new`. -/
def DirStorage.new {T : Type} (storage : List (String × T)) : DirStorage T :=
  ⟨storage⟩

/-- `DirStorage::default`: the empty storage. -/
def DirStorage.defaultStorage (T : Type) : DirStorage T := ⟨[]⟩

/-- `DirStorage::get`. -/
def DirStorage.get {T : Type} (s : DirStorage T) (k : String) : Option T :=
  mapLookup s.storage k

/-- `DirStorage::contains_key`. -/
def DirStorage.contains_key {T : Type} (s : DirStorage T) (k : String) : Bool :=
  (mapLookup s.storage k).isSome

/-- `DirStorage::insert` (returns the previous value, like
`HashMap::insert`). -/
def DirStorage.insert {T : Type} (s : DirStorage T) (k : String) (v : T) :
    Option T × DirStorage T :=
  (mapLookup s.storage k, ⟨mapInsert s.storage k v⟩)

/-- What one iteration of `restore`'s `for` loop does with the entry at
hand: skip it, insert a restored value under a key, or abort. -/
inductive StepRes (T : Type) where
  | skip
  | insertKV (s : String) (v : T)
  | fail (f : RFail)
deriving DecidableEq

/-- The body of `restore`'s `for` loop, for a single `read_dir` entry.
Mirrors dir.rs lines 96-116 in order: skip directories; skip hidden /
non-UTF-8 names; open the file (an open failure propagates via
`From<io::Error>` as `Error::IOError`); feed the contents through
`Storable::restore` (a failure becomes
`Error::RestoreError(entry.path().display(), msg)`); otherwise insert
under the file name unwrapped by `into_string().unwrap()` (which panics
on a non-UTF-8 name). -/
def restoreStep {T : Type} (St : StorableInst T) (dirPath : String)
    (e : DirEntry) : StepRes T :=
  if e.isDir then .skip
  else if hiddenOrNonUtf8 e.name then .skip
  else
    match e.content with
    | .error ioe => .fail (.err (.IOError ioe))
    | .ok bytes =>
      match St.restore bytes with
      | .error msg =>
          .fail (.err (.RestoreError
            (pathJoin dirPath e.name.displayStr) msg))
      | .ok v =>
        match e.name.toStr with
        | some s => .insertKV s v
        | none => .fail .badNameUnwrap

/-- `restore`'s `for` loop over `read_dir`, in entry order, with the
accumulated `HashMap`: apply `restoreStep` to each entry, aborting the
whole loop at the first failure. -/
def restoreLoop {T : Type} (St : StorableInst T) (dirPath : String) :
    List DirEntry → List (String × T) → Except RFail (List (String × T))
  | [], acc => .ok acc
  | e :: rest, acc =>
    match restoreStep St dirPath e with
    | .skip => restoreLoop St dirPath rest acc
    | .insertKV s v => restoreLoop St dirPath rest (mapInsert acc s v)
    | .fail f => .error f

/-- `DirStorage::restore(path_str)` run against directory state `d` at
`path_str`: if the path is not a directory the loop body never runs and
the empty storage is returned; otherwise the entries are processed in
order and the first failure aborts the whole call. -/
def DirStorage.restore {T : Type} (St : StorableInst T) (dirPath : String)
    (d : Dir) : Except RFail (DirStorage T) :=
  if d.existsAsDir then
    match restoreLoop St dirPath d.entries [] with
    | .ok storage => .ok ⟨storage⟩
    | .error f => .error f
  else
    .ok ⟨[]⟩

/-- Find the entry with a given (UTF-8) name in a listing. -/
def findEntry : List DirEntry → String → Option DirEntry
  | [], _ => none
  | e :: rest, s => if e.name = .utf8 s then some e else findEntry rest s

/-- Replace the content of the (first) entry named `s`, making it a
regular file with content `c`; append a fresh file entry if absent. -/
def setContent : List DirEntry → String → Except String (List Nat) →
    List DirEntry
  | [], s, c => [⟨.utf8 s, false, c⟩]
  | e :: rest, s, c =>
      if e.name = .utf8 s then ⟨.utf8 s, false, c⟩ :: rest
      else e :: setContent rest s c

/-- `OpenOptions::new().write(true).create(true).truncate(true).open` at
`dir/name`: fails if the name is taken by a sub-directory, or if the
target is absent and the directory itself does not exist; on success the
file exists with truncated (empty) content. -/
def openTruncate (d : Dir) (s : String) : Option Dir :=
  match findEntry d.entries s with
  | some e =>
      if e.isDir then none
      else some ⟨d.existsAsDir, setContent d.entries s (.ok [])⟩
  | none =>
      if d.existsAsDir then
        some ⟨d.existsAsDir, d.entries ++ [⟨.utf8 s, false, .ok []⟩]⟩
      else none

/-- `DirStorage::store_single(dir_path, filename)` against directory state
`d`, returning the new directory state and the error, if any.  Mirrors
dir.rs lines 137-158: a missing key is `Error::NotFound` before any file
operation; an open failure is `Error::OSError("could not open/create new
agenda file")`; a `Storable::store` failure is mapped — as the code
really does — to `Error::RestoreError(new_path.display(), msg)`, leaving
the file truncated. -/
def DirStorage.store_single {T : Type} (St : StorableInst T)
    (s : DirStorage T) (d : Dir) (dirPath filename : String) :
    Dir × Option Error :=
  match mapLookup s.storage filename with
  | none => (d, some (.NotFound filename))
  | some v =>
    let newPath := pathJoin dirPath filename
    match openTruncate d filename with
    | none => (d, some (.OSError "could not open/create new agenda file"))
    | some d1 =>
      match St.store v with
      | .ok bytes => (⟨d1.existsAsDir, setContent d1.entries filename (.ok bytes)⟩, none)
      | .error msg => (d1, some (.RestoreError newPath msg))

/-- The `for path_str in self.storage.keys()` loop of `store`: run
`store_single` for each key in turn, stopping at the first error. -/
def storeLoop {T : Type} (St : StorableInst T) (s : DirStorage T)
    (dirPath : String) : List String → Dir → Dir × Option Error
  | [], d => (d, none)
  | k :: ks, d =>
    match DirStorage.store_single St s d dirPath k with
    | (d', none) => storeLoop St s dirPath ks d'
    | (d', some e) => (d', some e)

/-- `DirStorage::store(dir_path)`: `store_single` for every key of the
storage, failing fast. -/
def DirStorage.store {T : Type} (St : StorableInst T) (s : DirStorage T)
    (d : Dir) (dirPath : String) : Dir × Option Error :=
  storeLoop St s dirPath (mapKeys s.storage) d

/-- A round-trip-correct `Storable` implementation: `store` always
succeeds and `restore` undoes it (spec §4.1's round-trip law). -/
def roundTripCorrect {T : Type} (St : StorableInst T) : Prop :=
  ∀ x : T, ∃ bs, St.store x = .ok bs ∧ St.restore bs = .ok x

/-- A concrete round-trip-correct `Storable` instance on `Bool`, used for
concrete witnesses. -/
def boolST : StorableInst Bool where
  store := fun b => .ok [if b then 1 else 0]
  restore := fun bs =>
    match bs with
    | [1] => .ok true
    | [0] => .ok false
    | _ => .error "bad byte"

/-- A `Storable` instance on `Bool` whose `store` always fails, used to
exercise the serialization-failure paths. -/
def failST : StorableInst Bool where
  store := fun _ => .error "boom"
  restore := fun _ => .error "bad"

/-- C4: `restore` on a path that does not exist or is not a directory
returns `Ok` with the empty storage, never an error. -/
theorem C4_missing_dir_empty {T : Type} (St : StorableInst T)
    (dirPath : String) (d : Dir) (h : d.existsAsDir = false) :
    DirStorage.restore St dirPath d = .ok ⟨[]⟩ := by
  simp [DirStorage.restore, h]

/-- Witness for C4 at a concrete nonexistent directory. -/
theorem C4_missing_dir_empty_witness :
    DirStorage.restore boolST "/no/such/dir"
      ⟨false, [⟨.utf8 "x", false, .ok [1]⟩]⟩ = .ok ⟨[]⟩ :=
  C4_missing_dir_empty boolST "/no/such/dir"
    ⟨false, [⟨.utf8 "x", false, .ok [1]⟩]⟩ rfl

/-- C5: `store_single` on a key absent from the storage returns
`Error::NotFound` naming that key and leaves the directory state
untouched — no file is created, truncated, or modified. -/
theorem C5_not_found_no_write {T : Type} (St : StorableInst T)
    (s : DirStorage T) (d : Dir) (dirPath k : String)
    (h : mapLookup s.storage k = none) :
    DirStorage.store_single St s d dirPath k = (d, some (.NotFound k)) := by
  simp [DirStorage.store_single, h]

/-- Witness for C5 at a concrete absent key. -/
theorem C5_not_found_no_write_witness :
    DirStorage.store_single boolST ⟨[("a", true)]⟩ ⟨true, []⟩ "/d" "b"
      = (⟨true, []⟩, some (.NotFound "b")) :=
  C5_not_found_no_write boolST ⟨[("a", true)]⟩ ⟨true, []⟩ "/d" "b" rfl

/-- C10: `store` of an empty storage iterates over no keys, so it returns
`Ok` and performs no file-system operation whatsoever — the directory
state (even a nonexistent one) is returned unchanged. -/
theorem C10_empty_store_noop {T : Type} (St : StorableInst T) (d : Dir)
    (dirPath : String) :
    DirStorage.store St (DirStorage.defaultStorage T) d dirPath = (d, none) :=
  rfl

/-- C3: evaluating `store_single` at a key whose value's `Storable::store`
fails shows the code returns `Error::RestoreError` (with path and
message), not the `Error::StoreError` variant the spec's taxonomy
promises — dir.rs line 157 maps the serialization failure to
`RestoreError`, and `StoreError` is never constructed anywhere. -/
theorem C3_store_failure_is_restore_kind :
    DirStorage.store_single failST ⟨[("k", true)]⟩ ⟨true, []⟩ "/d" "k"
      = (⟨true, [⟨.utf8 "k", false, .ok []⟩]⟩,
         some (.RestoreError "/d/k" "boom"))
    ∧ ∀ p m, (Error.RestoreError "/d/k" "boom") ≠ .StoreError p m := by
  exact ⟨rfl, fun p m h => Error.noConfusion h⟩

/-- C2 counterexample: a directory with a single ordinary file whose open
fails.  `restore` does return an error (all-or-nothing holds), but the
error is `Error::IOError` wrapping only the underlying I/O message — it
does not carry the offending file's path, contrary to the claim that
every such error identifies the path. -/
theorem C2_counterexample :
    DirStorage.restore boolST "/d"
      ⟨true, [⟨.utf8 "f", false, .error "io fail"⟩]⟩
      = .error (.err (.IOError "io fail"))
    ∧ Error.pathOf (.IOError "io fail") = none
    ∧ Error.pathOf (.IOError "io fail") ≠ some (pathJoin "/d" "f") := by
  refine ⟨rfl, rfl, ?_⟩
  intro h
  exact Option.noConfusion h

/-- C1 counterexample: the round-trip claim fails for a populated storage
whose key begins with the hidden-file marker.  With the round-trip-correct
instance `boolST`, storing `{".a" ↦ true}` into an empty existing
directory succeeds and writes the file `.a`, but `restore` skips that file
as hidden, so the restored storage is empty: the key sets differ. -/
theorem C1_counterexample :
    roundTripCorrect boolST
    ∧ (DirStorage.store boolST ⟨[(".a", true)]⟩ ⟨true, []⟩ "/d").2 = none
    ∧ DirStorage.restore boolST "/d"
        (DirStorage.store boolST ⟨[(".a", true)]⟩ ⟨true, []⟩ "/d").1
      = .ok ⟨[]⟩
    ∧ DirStorage.get (⟨[(".a", true)]⟩ : DirStorage Bool) ".a" = some true
    ∧ DirStorage.get (⟨[]⟩ : DirStorage Bool) ".a" = none := by
  refine ⟨?_, rfl, rfl, rfl, rfl⟩
  intro x
  cases x
  · exact ⟨[0], rfl, rfl⟩
  · exact ⟨[1], rfl, rfl⟩

/-- Lookup after insert: the inserted key maps to the new value, other
keys are unchanged. -/
theorem mapLookup_mapInsert {T : Type} (m : List (String × T)) (k : String)
    (v : T) (q : String) :
    mapLookup (mapInsert m k v) q = if k = q then some v else mapLookup m q := by
  induction m with
  | nil => simp [mapInsert, mapLookup]
  | cons h rest ih =>
    obtain ⟨k0, v0⟩ := h
    by_cases hk : k0 = k
    · subst hk
      by_cases hq : k0 = q <;> simp [mapInsert, mapLookup, hq]
    · simp only [mapInsert, if_neg hk, mapLookup]
      by_cases hq : k0 = q
      · subst hq
        have : ¬ k = k0 := fun h => hk h.symm
        simp [mapLookup, this]
      · simp [mapLookup, hq, ih]

/-- A key with a binding is among `mapKeys`. -/
theorem mem_mapKeys_of_lookup {T : Type} (m : List (String × T)) (k : String)
    (v : T) (h : mapLookup m k = some v) : k ∈ mapKeys m := by
  induction m with
  | nil => simp [mapLookup] at h
  | cons hd rest ih =>
    obtain ⟨k0, v0⟩ := hd
    by_cases hk : k0 = k
    · subst hk
      simp [mapKeys]
    · simp only [mapLookup, if_neg hk] at h
      simp [mapKeys] at ih ⊢
      exact Or.inr (ih h)

/-- A key among `mapKeys` has a binding. -/
theorem lookup_isSome_of_mem_mapKeys {T : Type} (m : List (String × T))
    (k : String) (h : k ∈ mapKeys m) : ∃ v, mapLookup m k = some v := by
  induction m with
  | nil => simp [mapKeys] at h
  | cons hd rest ih =>
    obtain ⟨k0, v0⟩ := hd
    by_cases hk : k0 = k
    · subst hk
      exact ⟨v0, by simp [mapLookup]⟩
    · simp [mapKeys, hk] at h
      rcases h with h | h
      · exact absurd h.symm hk
      · obtain ⟨v, hv⟩ := ih (by simpa [mapKeys] using h)
        exact ⟨v, by simp [mapLookup, hk, hv]⟩

/-- A key with no binding is not among `mapKeys`. -/
theorem lookup_eq_none_of_not_mem_mapKeys {T : Type} (m : List (String × T))
    (k : String) (h : k ∉ mapKeys m) : mapLookup m k = none := by
  cases hq : mapLookup m k with
  | none => rfl
  | some v => exact absurd (mem_mapKeys_of_lookup m k v hq) h

/-- Directories and hidden / non-UTF-8 names are skipped by the loop
body. -/
theorem restoreStep_skip {T : Type} (St : StorableInst T) (p : String)
    (e : DirEntry) (h : e.isDir = true ∨ hiddenOrNonUtf8 e.name = true) :
    restoreStep St p e = .skip := by
  rcases h with h | h
  · simp [restoreStep, h]
  · cases hd : e.isDir <;> simp [restoreStep, h, hd]

/-- The loop body never reaches the panicking `into_string().unwrap()`:
an entry whose name is not valid UTF-8 was already skipped by the hidden
test. -/
theorem restoreStep_ne_badName {T : Type} (St : StorableInst T) (p : String)
    (e : DirEntry) : restoreStep St p e ≠ .fail .badNameUnwrap := by
  cases hd : e.isDir
  · cases hh : hiddenOrNonUtf8 e.name
    · cases hc : e.content with
      | error m => simp [restoreStep, hd, hh, hc]
      | ok bytes =>
        cases hr : St.restore bytes with
        | error msg => simp [restoreStep, hd, hh, hc, hr]
        | ok v =>
          cases ht : e.name.toStr with
          | none =>
            exfalso
            simp [hiddenOrNonUtf8, ht] at hh
          | some s => simp [restoreStep, hd, hh, hc, hr, ht]
    · simp [restoreStep, hd, hh]
  · simp [restoreStep, hd]

/-- An insertion by the loop body pins down the entry: a non-directory
file with a non-hidden UTF-8 name that opened and deserialized
successfully, inserted under its own name. -/
theorem restoreStep_insert_inv {T : Type} (St : StorableInst T) (p : String)
    (e : DirEntry) (s : String) (v : T)
    (h : restoreStep St p e = .insertKV s v) :
    e.name = .utf8 s ∧ e.isDir = false ∧ hiddenOrNonUtf8 e.name = false ∧
      ∃ bytes, e.content = .ok bytes ∧ St.restore bytes = .ok v := by
  cases hd : e.isDir
  · cases hh : hiddenOrNonUtf8 e.name
    · cases hc : e.content with
      | error m => simp [restoreStep, hd, hh, hc] at h
      | ok bytes =>
        cases hr : St.restore bytes with
        | error msg => simp [restoreStep, hd, hh, hc, hr] at h
        | ok v' =>
          cases ht : e.name.toStr with
          | none =>
            exfalso
            simp [hiddenOrNonUtf8, ht] at hh
          | some s' =>
            simp only [restoreStep, hd, hh, hc, hr, ht, Bool.false_eq_true,
              if_false] at h
            obtain ⟨hs, hv⟩ := StepRes.insertKV.inj h
            subst hs
            subst hv
            have hname : e.name = FileName.utf8 s' := by
              cases hn : e.name with
              | utf8 u => rw [hn] at ht; cases ht; rfl
              | nonUtf8 t => rw [hn] at ht; cases ht
            exact ⟨hname, rfl, rfl, bytes, rfl, hr⟩
    · simp [restoreStep, hd, hh] at h
  · simp [restoreStep, hd] at h

/-- Skipped entries (directories, hidden or non-UTF-8 names) do not
affect the restore loop at all: removing one from the listing leaves the
result unchanged. -/
theorem restoreLoop_skip_elim {T : Type} (St : StorableInst T) (p : String)
    (e : DirEntry) (hskip : e.isDir = true ∨ hiddenOrNonUtf8 e.name = true) :
    ∀ (pre post : List DirEntry) (acc : List (String × T)),
    restoreLoop St p (pre ++ e :: post) acc = restoreLoop St p (pre ++ post) acc := by
  intro pre
  induction pre with
  | nil =>
    intro post acc
    simp [restoreLoop, restoreStep_skip St p e hskip]
  | cons x xs ih =>
    intro post acc
    simp only [List.cons_append, restoreLoop]
    cases hx : restoreStep St p x with
    | skip => exact ih post acc
    | insertKV s v => exact ih post _
    | fail f => rfl

/-- The restore loop never ends in the unwrap panic. -/
theorem restoreLoop_ne_badName {T : Type} (St : StorableInst T) (p : String) :
    ∀ (es : List DirEntry) (acc : List (String × T)),
    restoreLoop St p es acc ≠ .error .badNameUnwrap := by
  intro es
  induction es with
  | nil =>
    intro acc h
    exact Except.noConfusion h
  | cons e rest ih =>
    intro acc
    simp only [restoreLoop]
    cases hx : restoreStep St p e with
    | skip => exact ih acc
    | insertKV s v => exact ih _
    | fail f =>
      intro h
      cases h
      exact restoreStep_ne_badName St p e hx

/-- Every key of a successful restore loop's result comes either from the
accumulator or from an accepted entry: a non-directory whose name is
valid UTF-8 and not hidden. -/
theorem restoreLoop_keys {T : Type} (St : StorableInst T) (p : String) :
    ∀ (es : List DirEntry) (acc m : List (String × T)),
    restoreLoop St p es acc = .ok m →
    ∀ s, (mapLookup m s).isSome →
      (mapLookup acc s).isSome = true ∨
        ∃ e, e ∈ es ∧ e.name = FileName.utf8 s ∧ e.isDir = false ∧
          hiddenOrNonUtf8 e.name = false := by
  intro es
  induction es with
  | nil =>
    intro acc m h s hs
    cases h
    exact Or.inl hs
  | cons e rest ih =>
    intro acc m h s hs
    simp only [restoreLoop] at h
    cases hx : restoreStep St p e with
    | skip =>
      rw [hx] at h
      rcases ih acc m h s hs with h1 | ⟨e', he', h2⟩
      · exact Or.inl h1
      · exact Or.inr ⟨e', List.mem_cons_of_mem _ he', h2⟩
    | insertKV s' v =>
      rw [hx] at h
      rcases ih _ m h s hs with h1 | ⟨e', he', h2⟩
      · rw [mapLookup_mapInsert] at h1
        by_cases hss : s' = s
        · subst hss
          obtain ⟨hname, hd, hh, _⟩ := restoreStep_insert_inv St p e s' v hx
          exact Or.inr ⟨e, List.mem_cons_self _ _, hname, hd, hh⟩
        · rw [if_neg hss] at h1
          exact Or.inl h1
      · exact Or.inr ⟨e', List.mem_cons_of_mem _ he', h2⟩
    | fail f =>
      rw [hx] at h
      cases h

/-- An entry the loop body handles without aborting: it is skipped or
successfully inserted. -/
def stepOk {T : Type} (St : StorableInst T) (p : String) (e : DirEntry) :
    Prop :=
  restoreStep St p e = .skip ∨ ∃ s v, restoreStep St p e = .insertKV s v

/-- A prefix of entries that are all handled without aborting only moves
the accumulator: the loop on the whole listing continues on the suffix
from some accumulator. -/
theorem restoreLoop_prefix_ok {T : Type} (St : StorableInst T) (p : String) :
    ∀ (pre l : List DirEntry) (acc : List (String × T)),
    (∀ e ∈ pre, stepOk St p e) →
    ∃ acc', restoreLoop St p (pre ++ l) acc = restoreLoop St p l acc' := by
  intro pre
  induction pre with
  | nil =>
    intro l acc _
    exact ⟨acc, rfl⟩
  | cons x xs ih =>
    intro l acc hpre
    have hx := hpre x (List.mem_cons_self _ _)
    rcases hx with hx | ⟨s, v, hx⟩
    · simp only [List.cons_append, restoreLoop, hx]
      exact ih l acc fun e he => hpre e (List.mem_cons_of_mem _ he)
    · simp only [List.cons_append, restoreLoop, hx]
      exact ih l (mapInsert acc s v) fun e he => hpre e (List.mem_cons_of_mem _ he)

/-- An ordinary entry whose open failed makes the loop body abort with
`Error::IOError` carrying only the I/O message. -/
theorem restoreStep_open_fail {T : Type} (St : StorableInst T) (p : String)
    (e : DirEntry) (m : String) (hd : e.isDir = false)
    (hh : hiddenOrNonUtf8 e.name = false) (hc : e.content = .error m) :
    restoreStep St p e = .fail (.err (.IOError m)) := by
  simp [restoreStep, hd, hh, hc]

/-- An ordinary entry whose contents fail to deserialize makes the loop
body abort with `Error::RestoreError` carrying the file path and the
message. -/
theorem restoreStep_parse_fail {T : Type} (St : StorableInst T) (p : String)
    (e : DirEntry) (bs : List Nat) (msg : String) (hd : e.isDir = false)
    (hh : hiddenOrNonUtf8 e.name = false) (hc : e.content = .ok bs)
    (hr : St.restore bs = .error msg) :
    restoreStep St p e
      = .fail (.err (.RestoreError (pathJoin p e.name.displayStr) msg)) := by
  simp [restoreStep, hd, hh, hc, hr]

/-- C6: hidden files and sub-directories are skipped silently.  First
part: after a successful `restore` of a directory (whose entry names are
distinct, as in a real directory), no key of the result is the name of an
entry that is a sub-directory or has a hidden (or non-UTF-8) name.
Second part: such entries are skipped silently — deleting one from the
listing does not change `restore`'s result at all, so they never cause an
error. -/
theorem C6_hidden_and_dir_skip :
    (∀ (T : Type) (St : StorableInst T) (p : String) (d : Dir)
       (m : DirStorage T),
     DirStorage.restore St p d = .ok m →
     (d.entries.map DirEntry.name).Nodup →
     ∀ e ∈ d.entries, (e.isDir = true ∨ hiddenOrNonUtf8 e.name = true) →
     ∀ s, e.name = .utf8 s → DirStorage.contains_key m s = false)
    ∧ (∀ (T : Type) (St : StorableInst T) (p : String) (b : Bool)
         (pre post : List DirEntry) (e : DirEntry),
       e.isDir = true ∨ hiddenOrNonUtf8 e.name = true →
       DirStorage.restore St p ⟨b, pre ++ e :: post⟩
         = DirStorage.restore St p ⟨b, pre ++ post⟩) := by
  constructor
  · intro T St p d m hok hnd e he hskip s hs
    cases hb : d.existsAsDir with
    | false =>
      simp [DirStorage.restore, hb] at hok
      subst hok
      rfl
    | true =>
      simp only [DirStorage.restore, hb, if_true] at hok
      cases hl : restoreLoop St p d.entries [] with
      | error f => rw [hl] at hok; cases hok
      | ok st =>
        rw [hl] at hok
        cases hok
        cases hck : DirStorage.contains_key ⟨st⟩ s with
        | false => rfl
        | true =>
          exfalso
          have hsome : (mapLookup st s).isSome := by
            simpa [DirStorage.contains_key] using hck
          rcases restoreLoop_keys St p d.entries [] st hl s hsome with
            h1 | ⟨e', he', hn', hd', hh'⟩
          · simp [mapLookup] at h1
          · have : e = e' := by
              apply List.inj_on_of_nodup_map hnd he he'
              rw [hs, hn']
            subst this
            rcases hskip with h | h
            · rw [hd'] at h
              cases h
            · rw [hh'] at h
              cases h
  · intro T St p b pre post e hskip
    cases b with
    | false => simp [DirStorage.restore]
    | true =>
      simp only [DirStorage.restore, if_true]
      rw [restoreLoop_skip_elim St p e hskip]

/-- Witness for C6: a listing with a hidden file `.h`, a sub-directory
`sub` and an ordinary file `f` restores to a storage whose only key is
`f`, and deleting the hidden file from the listing changes nothing. -/
theorem C6_hidden_and_dir_skip_witness :
    DirStorage.contains_key (⟨[("f", true)]⟩ : DirStorage Bool) ".h" = false
    ∧ DirStorage.contains_key (⟨[("f", true)]⟩ : DirStorage Bool) "sub" = false
    ∧ DirStorage.restore boolST "/d"
        ⟨true, [⟨.utf8 ".h", false, .ok [1]⟩, ⟨.utf8 "f", false, .ok [1]⟩]⟩
      = DirStorage.restore boolST "/d" ⟨true, [⟨.utf8 "f", false, .ok [1]⟩]⟩ := by
  refine ⟨?_, ?_, ?_⟩
  · exact C6_hidden_and_dir_skip.1 Bool boolST "/d"
      ⟨true, [⟨.utf8 ".h", false, .ok [1]⟩, ⟨.utf8 "sub", true, .ok []⟩,
              ⟨.utf8 "f", false, .ok [1]⟩]⟩
      ⟨[("f", true)]⟩ rfl (by decide)
      ⟨.utf8 ".h", false, .ok [1]⟩ (by decide) (Or.inr rfl) ".h" rfl
  · exact C6_hidden_and_dir_skip.1 Bool boolST "/d"
      ⟨true, [⟨.utf8 ".h", false, .ok [1]⟩, ⟨.utf8 "sub", true, .ok []⟩,
              ⟨.utf8 "f", false, .ok [1]⟩]⟩
      ⟨[("f", true)]⟩ rfl (by decide)
      ⟨.utf8 "sub", true, .ok []⟩ (by decide) (Or.inl rfl) "sub" rfl
  · exact C6_hidden_and_dir_skip.2 Bool boolST "/d" true
      [] [⟨.utf8 "f", false, .ok [1]⟩] ⟨.utf8 ".h", false, .ok [1]⟩
      (Or.inr rfl)

/-- C9: entries whose file name is not valid UTF-8 are silently skipped
(the `unwrap_or(true)` branch of the hidden test treats them like hidden
files), and consequently `restore` can never reach the panicking
`into_string().unwrap()`: every entry that reaches the insertion step has
a valid UTF-8 name. -/
theorem C9_non_utf8_skip_no_panic :
    (∀ (T : Type) (St : StorableInst T) (p : String) (b : Bool)
       (pre post : List DirEntry) (t : Nat) (dirFlag : Bool)
       (c : Except String (List Nat)),
     DirStorage.restore St p ⟨b, pre ++ ⟨.nonUtf8 t, dirFlag, c⟩ :: post⟩
       = DirStorage.restore St p ⟨b, pre ++ post⟩)
    ∧ (∀ (T : Type) (St : StorableInst T) (p : String) (d : Dir),
       DirStorage.restore St p d ≠ .error .badNameUnwrap) := by
  constructor
  · intro T St p b pre post t dirFlag c
    cases b with
    | false => simp [DirStorage.restore]
    | true =>
      simp only [DirStorage.restore, if_true]
      rw [restoreLoop_skip_elim St p ⟨.nonUtf8 t, dirFlag, c⟩ (Or.inr rfl)]
  · intro T St p d h
    cases hb : d.existsAsDir with
    | false => simp [DirStorage.restore, hb] at h
    | true =>
      simp only [DirStorage.restore, hb, if_true] at h
      cases hl : restoreLoop St p d.entries [] with
      | ok st => rw [hl] at h; cases h
      | error f =>
        rw [hl] at h
        cases h
        exact restoreLoop_ne_badName St p d.entries [] hl

/-- Witness for C9 at a concrete non-UTF-8-named entry and a concrete
directory. -/
theorem C9_non_utf8_skip_no_panic_witness :
    DirStorage.restore boolST "/d"
      ⟨true, [⟨.nonUtf8 0, false, .ok [1]⟩, ⟨.utf8 "f", false, .ok [1]⟩]⟩
      = DirStorage.restore boolST "/d" ⟨true, [⟨.utf8 "f", false, .ok [1]⟩]⟩
    ∧ DirStorage.restore boolST "/d"
        ⟨true, [⟨.nonUtf8 0, false, .ok [1]⟩]⟩ ≠ .error .badNameUnwrap :=
  ⟨C9_non_utf8_skip_no_panic.1 Bool boolST "/d" true []
      [⟨.utf8 "f", false, .ok [1]⟩] 0 false (.ok [1]),
   C9_non_utf8_skip_no_panic.2 Bool boolST "/d"
      ⟨true, [⟨.nonUtf8 0, false, .ok [1]⟩]⟩⟩

/-- C2 (amended): all-or-nothing restore.  If any non-hidden,
non-directory file of the listing fails to open or fails to deserialize
(say the first such failure, all entries before it being handled
cleanly), the whole `restore` call returns an error — never a partial
storage.  When the failure is a deserialization failure the error is
`Error::RestoreError` carrying the offending file's full path and the
underlying message; when the failure is an open failure the error is
`Error::IOError` wrapping only the underlying I/O message, without the
path. -/
theorem C2_all_or_nothing {T : Type} (St : StorableInst T) (p : String)
    (pre post : List DirEntry) (bad : DirEntry) (s : String)
    (hpre : ∀ e ∈ pre, stepOk St p e)
    (hname : bad.name = .utf8 s)
    (hdir : bad.isDir = false)
    (hhid : hiddenOrNonUtf8 bad.name = false)
    (hfail : (∃ m, bad.content = .error m) ∨
       (∃ bs msg, bad.content = .ok bs ∧ St.restore bs = .error msg)) :
    ∃ er : Error,
      DirStorage.restore St p ⟨true, pre ++ bad :: post⟩ = .error (.err er)
      ∧ (∀ m, bad.content = .error m → er = .IOError m ∧ er.pathOf = none)
      ∧ (∀ bs msg, bad.content = .ok bs → St.restore bs = .error msg →
          er = .RestoreError (pathJoin p s) msg
          ∧ er.pathOf = some (pathJoin p s)) := by
  obtain ⟨acc', hacc⟩ :=
    restoreLoop_prefix_ok St p pre (bad :: post) [] hpre
  have hdisp : bad.name.displayStr = s := by
    rw [hname]
    rfl
  rcases hfail with ⟨m, hc⟩ | ⟨bs, msg, hc, hr⟩
  · refine ⟨.IOError m, ?_, ?_, ?_⟩
    · simp only [DirStorage.restore, if_true]
      rw [hacc]
      simp only [restoreLoop, restoreStep_open_fail St p bad m hdir hhid hc]
    · intro m' hm'
      rw [hc] at hm'
      cases hm'
      exact ⟨rfl, rfl⟩
    · intro bs' msg' hc' _
      rw [hc] at hc'
      cases hc'
  · refine ⟨.RestoreError (pathJoin p s) msg, ?_, ?_, ?_⟩
    · simp only [DirStorage.restore, if_true]
      rw [hacc]
      have hstep := restoreStep_parse_fail St p bad bs msg hdir hhid hc hr
      rw [hdisp] at hstep
      simp only [restoreLoop, hstep]
    · intro m' hm'
      rw [hc] at hm'
      cases hm'
    · intro bs' msg' hc' hr'
      rw [hc] at hc'
      cases hc'
      rw [hr] at hr'
      cases hr'
      exact ⟨rfl, rfl⟩

/-- Witness for C2 at a concrete directory: one clean entry, then a file
`g` whose contents fail to parse. -/
theorem C2_all_or_nothing_witness :
    ∃ er : Error,
      DirStorage.restore boolST "/d"
        ⟨true, [⟨.utf8 "f", false, .ok [1]⟩] ++
               ⟨.utf8 "g", false, .ok [7]⟩ :: []⟩ = .error (.err er)
      ∧ (∀ m, (Except.ok [7] : Except String (List Nat)) = .error m →
          er = .IOError m ∧ er.pathOf = none)
      ∧ (∀ bs msg, (Except.ok [7] : Except String (List Nat)) = .ok bs →
          boolST.restore bs = .error msg →
          er = .RestoreError (pathJoin "/d" "g") msg
          ∧ er.pathOf = some (pathJoin "/d" "g")) :=
  C2_all_or_nothing boolST "/d" [⟨.utf8 "f", false, .ok [1]⟩] []
    ⟨.utf8 "g", false, .ok [7]⟩ "g"
    (by
      intro e he
      simp only [List.mem_singleton] at he
      subst he
      exact Or.inr ⟨"f", true, rfl⟩)
    rfl rfl rfl
    (Or.inr ⟨[7], "bad byte", rfl, rfl⟩)

/-- After `setContent`, the named entry is the written file. -/
theorem findEntry_setContent_self (es : List DirEntry) (s : String)
    (c : Except String (List Nat)) :
    findEntry (setContent es s c) s = some ⟨.utf8 s, false, c⟩ := by
  induction es with
  | nil => simp [setContent, findEntry]
  | cons e rest ih =>
    by_cases h : e.name = .utf8 s
    · simp [setContent, findEntry, h]
    · simp [setContent, findEntry, h, ih]

/-- `setContent` leaves entries with other names alone. -/
theorem findEntry_setContent_other (es : List DirEntry) (s n : String)
    (c : Except String (List Nat)) (hn : n ≠ s) :
    findEntry (setContent es s c) n = findEntry es n := by
  induction es with
  | nil =>
    simp [setContent, findEntry]
    intro h
    exact absurd h.symm hn
  | cons e rest ih =>
    by_cases h : e.name = .utf8 s
    · have hne : ¬ (FileName.utf8 s = FileName.utf8 n) := by
        intro hx
        exact hn (FileName.utf8.inj hx).symm
      have hen : ¬ (e.name = FileName.utf8 n) := by
        rw [h]
        exact hne
      simp [setContent, findEntry, h, hne, hen]
    · by_cases h2 : e.name = .utf8 n
      · simp [setContent, findEntry, h, h2, hn]
      · simp [setContent, findEntry, h, h2, ih]

/-- Rewriting the same entry twice keeps only the last write. -/
theorem setContent_setContent (es : List DirEntry) (s : String)
    (c1 c2 : Except String (List Nat)) :
    setContent (setContent es s c1) s c2 = setContent es s c2 := by
  induction es with
  | nil => simp [setContent]
  | cons e rest ih =>
    by_cases h : e.name = .utf8 s
    · simp [setContent, h]
    · simp [setContent, h, ih]

/-- Writing back exactly the bytes an entry already holds changes
nothing. -/
theorem setContent_eq_self (es : List DirEntry) (s : String)
    (c : Except String (List Nat))
    (h : findEntry es s = some ⟨.utf8 s, false, c⟩) :
    setContent es s c = es := by
  induction es with
  | nil => simp [findEntry] at h
  | cons e rest ih =>
    by_cases he : e.name = .utf8 s
    · simp only [findEntry, he, if_true] at h
      cases h
      simp [setContent, he]
    · simp only [findEntry, he, if_false] at h
      simp [setContent, he, ih h]

/-- Looking up a name absent from the front part of a listing reduces to
the back part. -/
theorem findEntry_append_none (es fs : List DirEntry) (n : String)
    (h : findEntry es n = none) :
    findEntry (es ++ fs) n = findEntry fs n := by
  induction es with
  | nil => simp
  | cons e rest ih =>
    by_cases he : e.name = .utf8 n
    · simp [findEntry, he] at h
    · simp only [findEntry, he, if_false] at h
      simp [findEntry, he, ih h]

/-- A single appended entry with a different name is invisible to
lookup. -/
theorem findEntry_append_single_other (es : List DirEntry) (k n : String)
    (b : Bool) (c : Except String (List Nat)) (hn : n ≠ k) :
    findEntry (es ++ [⟨.utf8 k, b, c⟩]) n = findEntry es n := by
  induction es with
  | nil =>
    simp [findEntry]
    intro h
    exact absurd h.symm hn
  | cons e rest ih =>
    by_cases he : e.name = .utf8 n
    · simp [findEntry, he]
    · simp [findEntry, he, ih]

/-- `setContent` on a listing whose last entry carries the name rewrites
just that entry. -/
theorem setContent_append_fresh (es : List DirEntry) (s : String)
    (c c' : Except String (List Nat)) (h : findEntry es s = none) :
    setContent (es ++ [⟨.utf8 s, false, c⟩]) s c'
      = es ++ [⟨.utf8 s, false, c'⟩] := by
  induction es with
  | nil => simp [setContent]
  | cons e rest ih =>
    by_cases he : e.name = .utf8 s
    · simp [findEntry, he] at h
    · simp only [findEntry, he, if_false] at h
      simp [setContent, he, ih h]

/-- `openTruncate` never changes the directory-existence flag and never
touches entries with other names. -/
theorem openTruncate_shape (d : Dir) (k : String) (d1 : Dir)
    (h : openTruncate d k = some d1) :
    d1.existsAsDir = d.existsAsDir
    ∧ (∀ n, n ≠ k → findEntry d1.entries n = findEntry d.entries n)
    ∧ findEntry d1.entries k = some ⟨.utf8 k, false, .ok []⟩ := by
  cases hf : findEntry d.entries k with
  | some e =>
    cases he : e.isDir with
    | true => simp [openTruncate, hf, he] at h
    | false =>
      simp only [openTruncate, hf, he, Bool.false_eq_true, if_false,
        Option.some.injEq] at h
      subst h
      refine ⟨rfl, ?_, ?_⟩
      · intro n hn
        exact findEntry_setContent_other d.entries k n _ hn
      · exact findEntry_setContent_self d.entries k _
  | none =>
    cases hex : d.existsAsDir with
    | false => simp [openTruncate, hf, hex] at h
    | true =>
      simp only [openTruncate, hf, hex, if_true, Option.some.injEq] at h
      subst h
      refine ⟨rfl, ?_, ?_⟩
      · intro n hn
        exact findEntry_append_single_other d.entries k n false (.ok []) hn
      · rw [findEntry_append_none d.entries _ k hf]
        simp [findEntry]

/-- `store_single` only ever touches the file named by its key: the
directory-existence flag and every entry with another name are exactly as
before, whatever the outcome. -/
theorem store_single_preserves_other {T : Type} (St : StorableInst T)
    (s : DirStorage T) (d : Dir) (p k : String) (d' : Dir)
    (r : Option Error) (h : DirStorage.store_single St s d p k = (d', r)) :
    d'.existsAsDir = d.existsAsDir
    ∧ ∀ n, n ≠ k → findEntry d'.entries n = findEntry d.entries n := by
  cases hlk : mapLookup s.storage k with
  | none =>
    simp only [DirStorage.store_single, hlk, Prod.mk.injEq] at h
    rw [← h.1]
    exact ⟨rfl, fun n _ => rfl⟩
  | some v =>
    cases ho : openTruncate d k with
    | none =>
      simp only [DirStorage.store_single, hlk, ho, Prod.mk.injEq] at h
      rw [← h.1]
      exact ⟨rfl, fun n _ => rfl⟩
    | some d1 =>
      obtain ⟨hex1, hoth1, _⟩ := openTruncate_shape d k d1 ho
      cases hst : St.store v with
      | ok bytes =>
        simp only [DirStorage.store_single, hlk, ho, hst, Prod.mk.injEq] at h
        rw [← h.1]
        refine ⟨hex1, ?_⟩
        intro n hn
        rw [findEntry_setContent_other d1.entries k n _ hn]
        exact hoth1 n hn
      | error msg =>
        simp only [DirStorage.store_single, hlk, ho, hst, Prod.mk.injEq] at h
        rw [← h.1]
        exact ⟨hex1, hoth1⟩

/-- A successful `store_single` pins everything down: the key was bound
to a value whose serialization succeeded, and afterwards the file named
by the key holds exactly those bytes. -/
theorem store_single_success_shape {T : Type} (St : StorableInst T)
    (s : DirStorage T) (d : Dir) (p k : String) (d' : Dir)
    (h : DirStorage.store_single St s d p k = (d', none)) :
    ∃ v bs, mapLookup s.storage k = some v ∧ St.store v = .ok bs
      ∧ findEntry d'.entries k = some ⟨.utf8 k, false, .ok bs⟩ := by
  cases hlk : mapLookup s.storage k with
  | none => simp [DirStorage.store_single, hlk] at h
  | some v =>
    cases ho : openTruncate d k with
    | none => simp [DirStorage.store_single, hlk, ho] at h
    | some d1 =>
      cases hst : St.store v with
      | error msg => simp [DirStorage.store_single, hlk, ho, hst] at h
      | ok bytes =>
        simp only [DirStorage.store_single, hlk, ho, hst, Prod.mk.injEq] at h
        rw [← h.1]
        exact ⟨v, bytes, rfl, hst, findEntry_setContent_self d1.entries k _⟩

/-- Re-running `store_single` over a file that already holds exactly the
bytes the value serializes to succeeds and leaves the directory state
identical (truncate, then rewrite the same bytes). -/
theorem store_single_rewrite_same {T : Type} (St : StorableInst T)
    (s : DirStorage T) (d : Dir) (p k : String) (v : T) (bs : List Nat)
    (hlk : mapLookup s.storage k = some v) (hst : St.store v = .ok bs)
    (hfe : findEntry d.entries k = some ⟨.utf8 k, false, .ok bs⟩) :
    DirStorage.store_single St s d p k = (d, none) := by
  have ho : openTruncate d k = some ⟨d.existsAsDir, setContent d.entries k (.ok [])⟩ := by
    simp [openTruncate, hfe]
  simp only [DirStorage.store_single, hlk, ho, hst]
  rw [setContent_setContent, setContent_eq_self d.entries k _ hfe]

/-- The store loop over a concatenation runs the first part, then — if no
error occurred — the second part from the reached state. -/
theorem storeLoop_append {T : Type} (St : StorableInst T) (s : DirStorage T)
    (p : String) :
    ∀ (a b : List String) (d : Dir),
    storeLoop St s p (a ++ b) d
      = match storeLoop St s p a d with
        | (d1, none) => storeLoop St s p b d1
        | (d1, some e) => (d1, some e) := by
  intro a
  induction a with
  | nil =>
    intro b d
    rfl
  | cons k ks ih =>
    intro b d
    simp only [List.cons_append, storeLoop]
    cases hss : DirStorage.store_single St s d p k with
    | mk d' r =>
      cases r with
      | none => exact ih b d'
      | some e => rfl

/-- The store loop never touches files whose name is not among the keys
it processes. -/
theorem storeLoop_preserves_other {T : Type} (St : StorableInst T)
    (s : DirStorage T) (p : String) :
    ∀ (ks : List String) (d d' : Dir) (r : Option Error),
    storeLoop St s p ks d = (d', r) →
    ∀ n, n ∉ ks → findEntry d'.entries n = findEntry d.entries n := by
  intro ks
  induction ks with
  | nil =>
    intro d d' r h n _
    cases h
    rfl
  | cons k ks ih =>
    intro d d' r h n hn
    have hnk : n ≠ k := fun hx => hn (hx ▸ List.mem_cons_self _ _)
    have hnks : n ∉ ks := fun hx => hn (List.mem_cons_of_mem _ hx)
    simp only [storeLoop] at h
    cases hss : DirStorage.store_single St s d p k with
    | mk d1 r1 =>
      rw [hss] at h
      obtain ⟨_, hoth⟩ :=
        store_single_preserves_other St s d p k d1 r1 hss
      cases r1 with
      | none =>
        rw [ih d1 d' r h n hnks]
        exact hoth n hnk
      | some e =>
        cases h
        exact hoth n hnk

/-- C7: batch store semantics.  `store` is the key-by-key iteration of
`store_single` over the storage's keys: if every call succeeds the whole
call returns `Ok` in the reached state, and if some call fails — the
first failing key being `k` after a clean prefix `ks1` — the whole call
stops there and returns exactly that call's error, in exactly that call's
directory state: the keys after `k` are never processed and the files
written for `ks1` are left on disk untouched (no rollback — only the
entry named `k` differs from the pre-failure state). -/
theorem C7_batch_store {T : Type} (St : StorableInst T) (s : DirStorage T)
    (d : Dir) (p : String) :
    (∀ d', storeLoop St s p (mapKeys s.storage) d = (d', none) →
       DirStorage.store St s d p = (d', none))
    ∧ (∀ ks1 k ks2 d1 d2 e,
       mapKeys s.storage = ks1 ++ k :: ks2 →
       storeLoop St s p ks1 d = (d1, none) →
       DirStorage.store_single St s d1 p k = (d2, some e) →
       DirStorage.store St s d p = (d2, some e)
       ∧ ∀ n, n ≠ k → findEntry d2.entries n = findEntry d1.entries n) := by
  constructor
  · intro d' h
    exact h
  · intro ks1 k ks2 d1 d2 e hkeys h1 hss
    constructor
    · show storeLoop St s p (mapKeys s.storage) d = (d2, some e)
      rw [hkeys, storeLoop_append, h1]
      show storeLoop St s p (k :: ks2) d1 = (d2, some e)
      simp only [storeLoop]
      rw [hss]
    · exact (store_single_preserves_other St s d1 p k d2 (some e) hss).2

/-- A `Storable` instance on `Bool` that can serialize `true` but not
`false`, exercising a mid-batch failure. -/
def partialST : StorableInst Bool where
  store := fun b => if b then .ok [1] else .error "cannot store false"
  restore := fun _ => .error "bad"

/-- Witness for C7: keys `a`, `b`, `c` where `b`'s value fails to
serialize; `store` returns `b`'s error, in the state holding `a`'s
written file plus `b`'s truncated file. -/
theorem C7_batch_store_witness :
    DirStorage.store partialST ⟨[("a", true), ("b", false), ("c", true)]⟩
        ⟨true, []⟩ "/d"
      = (⟨true, [⟨.utf8 "a", false, .ok [1]⟩, ⟨.utf8 "b", false, .ok []⟩]⟩,
         some (.RestoreError "/d/b" "cannot store false"))
    ∧ ∀ n, n ≠ "b" →
        findEntry [⟨.utf8 "a", false, .ok [1]⟩, ⟨.utf8 "b", false, .ok []⟩] n
          = findEntry [⟨.utf8 "a", false, .ok [1]⟩] n :=
  (C7_batch_store partialST ⟨[("a", true), ("b", false), ("c", true)]⟩
      ⟨true, []⟩ "/d").2
    ["a"] "b" ["c"]
    ⟨true, [⟨.utf8 "a", false, .ok [1]⟩]⟩
    ⟨true, [⟨.utf8 "a", false, .ok [1]⟩, ⟨.utf8 "b", false, .ok []⟩]⟩
    (.RestoreError "/d/b" "cannot store false")
    rfl rfl rfl

/-- Re-running the whole store loop over its own result rewrites every
file with the very same bytes: the state is a fixed point. -/
theorem storeLoop_idem {T : Type} (St : StorableInst T) (s : DirStorage T)
    (p : String) :
    ∀ (ks : List String) (d d1 : Dir), ks.Nodup →
    storeLoop St s p ks d = (d1, none) →
    storeLoop St s p ks d1 = (d1, none) := by
  intro ks
  induction ks with
  | nil =>
    intro d d1 _ h
    cases h
    rfl
  | cons k ks ih =>
    intro d d1 hnd h
    have hknotin : k ∉ ks := (List.nodup_cons.mp hnd).1
    have hndtail : ks.Nodup := (List.nodup_cons.mp hnd).2
    simp only [storeLoop] at h
    cases hss : DirStorage.store_single St s d p k with
    | mk d' r =>
      rw [hss] at h
      cases r with
      | some e => simp at h
      | none =>
        obtain ⟨v, bs, hlk, hst, hfe⟩ :=
          store_single_success_shape St s d p k d' hss
        have hfe1 : findEntry d1.entries k = some ⟨.utf8 k, false, .ok bs⟩ := by
          rw [storeLoop_preserves_other St s p ks d' d1 none h k hknotin]
          exact hfe
        have hss1 : DirStorage.store_single St s d1 p k = (d1, none) :=
          store_single_rewrite_same St s d1 p k v bs hlk hst hfe1
        simp only [storeLoop]
        rw [hss1]
        exact ih d' d1 hndtail h

/-- C8: idempotence of `store`.  If a `store` into some directory
succeeded, running `store` again with no mutation in between succeeds as
well and leaves the directory state — in particular every file's bytes —
exactly identical.  (In the model `Storable::store` is a function, so the
claim's determinism hypothesis holds by construction.) -/
theorem C8_store_idempotent {T : Type} (St : StorableInst T)
    (s : DirStorage T) (d d1 : Dir) (p : String)
    (hnd : (mapKeys s.storage).Nodup)
    (h1 : DirStorage.store St s d p = (d1, none)) :
    DirStorage.store St s d1 p = (d1, none) :=
  storeLoop_idem St s p (mapKeys s.storage) d d1 hnd h1

/-- Witness for C8 at a concrete storage and directory. -/
theorem C8_store_idempotent_witness :
    DirStorage.store boolST ⟨[("a", true), ("b", false)]⟩
        ⟨true, [⟨.utf8 "a", false, .ok [1]⟩,
                ⟨.utf8 "b", false, .ok [0]⟩]⟩ "/d"
      = (⟨true, [⟨.utf8 "a", false, .ok [1]⟩,
                 ⟨.utf8 "b", false, .ok [0]⟩]⟩, none) :=
  C8_store_idempotent boolST ⟨[("a", true), ("b", false)]⟩ ⟨true, []⟩
    ⟨true, [⟨.utf8 "a", false, .ok [1]⟩, ⟨.utf8 "b", false, .ok [0]⟩]⟩
    "/d" (by decide) rfl

/-- The bytes `store_single` leaves in the file for key `k` when the key
is bound and its serialization succeeds. -/
def writtenContent {T : Type} (St : StorableInst T) (s : DirStorage T)
    (k : String) : List Nat :=
  match mapLookup s.storage k with
  | some v =>
    match St.store v with
    | .ok bs => bs
    | .error _ => []
  | none => []

/-- Storing keys that are all bound, all serializable and all fresh in
the target directory appends, in key order, one file per key holding its
serialized bytes. -/
theorem storeLoop_fresh {T : Type} (St : StorableInst T) (s : DirStorage T)
    (p : String) :
    ∀ (ks : List String) (d : Dir),
    (∀ k ∈ ks, ∃ v bs, mapLookup s.storage k = some v ∧ St.store v = .ok bs) →
    ks.Nodup →
    (∀ k ∈ ks, findEntry d.entries k = none) →
    d.existsAsDir = true →
    storeLoop St s p ks d
      = (⟨true, d.entries ++ ks.map
            (fun k => ⟨.utf8 k, false, .ok (writtenContent St s k)⟩)⟩,
         none) := by
  intro ks
  induction ks with
  | nil =>
    intro d _ _ _ hex
    obtain ⟨ex, es⟩ := d
    simp only [storeLoop, List.map_nil, List.append_nil]
    simp at hex
    rw [hex]
  | cons k ks ih =>
    intro d hbound hnd hfresh hex
    obtain ⟨v, bs, hlk, hst⟩ := hbound k (List.mem_cons_self _ _)
    have hfr : findEntry d.entries k = none := hfresh k (List.mem_cons_self _ _)
    have ho : openTruncate d k
        = some ⟨d.existsAsDir, d.entries ++ [⟨.utf8 k, false, .ok []⟩]⟩ := by
      simp [openTruncate, hfr, hex]
    have hwc : writtenContent St s k = bs := by
      simp [writtenContent, hlk, hst]
    have hss : DirStorage.store_single St s d p k
        = (⟨d.existsAsDir, d.entries ++ [⟨.utf8 k, false, .ok bs⟩]⟩, none) := by
      simp only [DirStorage.store_single, hlk, ho, hst]
      rw [setContent_append_fresh d.entries k _ _ hfr]
    simp only [storeLoop]
    rw [hss]
    show storeLoop St s p ks
        ⟨d.existsAsDir, d.entries ++ [⟨.utf8 k, false, .ok bs⟩]⟩ = _
    have ihres := ih ⟨d.existsAsDir, d.entries ++ [⟨.utf8 k, false, .ok bs⟩]⟩
      (fun k' hk' => hbound k' (List.mem_cons_of_mem _ hk'))
      (List.nodup_cons.mp hnd).2
      (fun k' hk' => by
        have hk'k : k' ≠ k := by
          intro hx
          exact (List.nodup_cons.mp hnd).1 (hx ▸ hk')
        show findEntry (d.entries ++ [⟨.utf8 k, false, .ok bs⟩]) k' = none
        rw [findEntry_append_single_other d.entries k k' false (.ok bs) hk'k]
        exact hfresh k' (List.mem_cons_of_mem _ hk'))
      hex
    rw [ihres]
    simp [hwc, List.append_assoc]

/-- The loop body accepts a plain file with a non-hidden UTF-8 name whose
bytes deserialize: it inserts the restored value under the file name. -/
theorem restoreStep_insert {T : Type} (St : StorableInst T) (p : String)
    (nm : String) (bs : List Nat) (v : T) (hh : startsWithDot nm = false)
    (hr : St.restore bs = .ok v) :
    restoreStep St p ⟨.utf8 nm, false, .ok bs⟩ = .insertKV nm v := by
  simp [restoreStep, hiddenOrNonUtf8, FileName.toStr, hh, hr]

/-- Restoring a listing of one file per key, each holding that key's
written bytes and each deserializing back to the stored value, succeeds;
the result maps exactly the listed keys to the storage's values (keys not
listed fall back to the accumulator). -/
theorem restoreLoop_written {T : Type} (St : StorableInst T)
    (s : DirStorage T) (p : String) :
    ∀ (ks : List String) (acc : List (String × T)),
    (∀ k ∈ ks, startsWithDot k = false ∧
       ∃ v, mapLookup s.storage k = some v ∧
         St.restore (writtenContent St s k) = .ok v) →
    ∃ m, restoreLoop St p
        (ks.map (fun k => ⟨.utf8 k, false, .ok (writtenContent St s k)⟩)) acc
      = .ok m
      ∧ ∀ q, mapLookup m q
          = if q ∈ ks then mapLookup s.storage q else mapLookup acc q := by
  intro ks
  induction ks with
  | nil =>
    intro acc _
    exact ⟨acc, rfl, fun q => by simp⟩
  | cons k ks ih =>
    intro acc hgood
    obtain ⟨hdot, v, hlk, hres⟩ := hgood k (List.mem_cons_self _ _)
    have hstep := restoreStep_insert St p k (writtenContent St s k) v hdot hres
    obtain ⟨m, hm, hchar⟩ := ih (mapInsert acc k v)
      (fun k' hk' => hgood k' (List.mem_cons_of_mem _ hk'))
    refine ⟨m, ?_, ?_⟩
    · simp only [List.map_cons, restoreLoop]
      rw [hstep]
      exact hm
    · intro q
      rw [hchar q]
      by_cases hqks : q ∈ ks
      · simp [hqks]
      · by_cases hqk : q = k
        · subst hqk
          simp [hqks, mapLookup_mapInsert, hlk]
        · have : q ∉ (k :: ks) := by
            intro hx
            rcases List.mem_cons.mp hx with hx | hx
            · exact hqk hx
            · exact hqks hx
          have hkq : ¬ k = q := fun h => hqk h.symm
          simp only [hqks, if_false, this, if_false]
          rw [mapLookup_mapInsert, if_neg hkq]

/-- C1 (amended): the round trip holds for every populated storage whose
keys do not begin with the hidden-file marker `'.'` (the counterexample
shows a hidden key is written but then skipped on restore), stored into
an existing empty directory, over any round-trip-correct `Storable`
implementation: `store` succeeds and `restore` of the written directory
yields a storage with exactly the same key set and equal values. -/
theorem C1_round_trip_amended {T : Type} (St : StorableInst T)
    (s : DirStorage T) (p : String)
    (hrt : roundTripCorrect St)
    (hnd : (mapKeys s.storage).Nodup)
    (hkeys : ∀ k ∈ mapKeys s.storage, startsWithDot k = false)
    (_hpop : s.storage ≠ []) :
    ∃ d1, DirStorage.store St s ⟨true, []⟩ p = (d1, none)
      ∧ ∃ res, DirStorage.restore St p d1 = .ok res
        ∧ ∀ k, DirStorage.get res k = DirStorage.get s k := by
  have hbound : ∀ k ∈ mapKeys s.storage,
      ∃ v bs, mapLookup s.storage k = some v ∧ St.store v = .ok bs := by
    intro k hk
    obtain ⟨v, hv⟩ := lookup_isSome_of_mem_mapKeys s.storage k hk
    obtain ⟨bs, hbs, _⟩ := hrt v
    exact ⟨v, bs, hv, hbs⟩
  have hstore := storeLoop_fresh St s p (mapKeys s.storage) ⟨true, []⟩
    hbound hnd (fun _ _ => rfl) rfl
  refine ⟨_, hstore, ?_⟩
  have hgood : ∀ k ∈ mapKeys s.storage, startsWithDot k = false ∧
      ∃ v, mapLookup s.storage k = some v ∧
        St.restore (writtenContent St s k) = .ok v := by
    intro k hk
    refine ⟨hkeys k hk, ?_⟩
    obtain ⟨v, hv⟩ := lookup_isSome_of_mem_mapKeys s.storage k hk
    obtain ⟨bs, hbs, hback⟩ := hrt v
    refine ⟨v, hv, ?_⟩
    have : writtenContent St s k = bs := by
      simp [writtenContent, hv, hbs]
    rw [this]
    exact hback
  obtain ⟨m, hm, hchar⟩ :=
    restoreLoop_written St s p (mapKeys s.storage) [] hgood
  refine ⟨⟨m⟩, ?_, ?_⟩
  · simp only [DirStorage.restore, if_true]
    rw [List.nil_append, hm]
  · intro k
    show mapLookup m k = mapLookup s.storage k
    rw [hchar k]
    by_cases hk : k ∈ mapKeys s.storage
    · simp [hk]
    · simp only [hk, if_false, mapLookup]
      exact (lookup_eq_none_of_not_mem_mapKeys s.storage k hk).symm

/-- Witness for C1 (amended) at a concrete two-key storage over the
round-trip-correct instance `boolST`. -/
theorem C1_round_trip_amended_witness :
    ∃ d1, DirStorage.store boolST ⟨[("a", true), ("b", false)]⟩
        ⟨true, []⟩ "/d" = (d1, none)
      ∧ ∃ res, DirStorage.restore boolST "/d" d1 = .ok res
        ∧ ∀ k, DirStorage.get res k
            = DirStorage.get (⟨[("a", true), ("b", false)]⟩ : DirStorage Bool) k :=
  C1_round_trip_amended boolST ⟨[("a", true), ("b", false)]⟩ "/d"
    (fun x => by
      cases x
      · exact ⟨[0], rfl, rfl⟩
      · exact ⟨[1], rfl, rfl⟩)
    (by decide) (by decide) (by decide)
